import Mathlib

/-
Verification of the GameplayUtils blueprint function library
(Plugins/GameplayUtils/Source/GameplayUtils/Private/GameplayUtilsBPLibrary.cpp).

The three library functions — SmoothRotatorInterp, CalculateJumpVelocity and
FindClosestActor — are embedded below over the real numbers.  The engine math
collaborators they call (FVector, FQuat, FRotator operations, FMath helpers)
are embedded from Unreal Engine's own definitions: in particular
FVector::Normalize leaves a vector unchanged when its squared length does not
exceed the tolerance SMALL_NUMBER = 1e-8, FQuat::GetNormalized falls back to
the identity quaternion below the tolerance, MAX_FLT is the largest finite
32-bit float, and FQuat::Slerp takes the shorter arc by conditionally negating
the second scale factor.
-/

noncomputable section

namespace GameplayUtils

/-- Unreal's MAX_FLT: the largest finite 32-bit float value. -/
def MAX_FLT : ℝ := 3.402823466e38

/-- Unreal's SMALL_NUMBER tolerance (1e-8). -/
def SMALL_NUMBER : ℝ := 1e-8

/-- FMath::Clamp, written exactly as the engine's conditional chain
`X < Min ? Min : X < Max ? X : Max`. -/
def clamp (x lo hi : ℝ) : ℝ := if x < lo then lo else if x < hi then x else hi

/-- FMath::FloatSelect: `Comparand >= 0 ? ValueGEZero : ValueLTZero`. -/
def floatSelect (comparand valueGEZero valueLTZero : ℝ) : ℝ :=
  if 0 ≤ comparand then valueGEZero else valueLTZero

/-- Unreal's FVector, components modelled as real numbers. -/
@[ext]
structure FVector where
  x : ℝ
  y : ℝ
  z : ℝ

namespace FVector

/-- Componentwise vector addition (FVector operator+). -/
def add (a b : FVector) : FVector := ⟨a.x + b.x, a.y + b.y, a.z + b.z⟩

/-- Componentwise vector subtraction (FVector operator-). -/
def sub (a b : FVector) : FVector := ⟨a.x - b.x, a.y - b.y, a.z - b.z⟩

/-- Scalar multiple of a vector (FVector operator*). -/
def scale (v : FVector) (s : ℝ) : FVector := ⟨v.x * s, v.y * s, v.z * s⟩

/-- FVector::CrossProduct / Cross. -/
def cross (a b : FVector) : FVector :=
  ⟨a.y * b.z - a.z * b.y, a.z * b.x - a.x * b.z, a.x * b.y - a.y * b.x⟩

/-- FVector::Size: Euclidean length. -/
def size (v : FVector) : ℝ := Real.sqrt (v.x * v.x + v.y * v.y + v.z * v.z)

/-- FVector::Normalize with the default tolerance SMALL_NUMBER: the vector is
scaled by the inverse square root of its squared length only when the squared
length strictly exceeds the tolerance; otherwise it is left unchanged (and the
engine function reports failure). -/
def normalize (v : FVector) : FVector :=
  if SMALL_NUMBER < v.x * v.x + v.y * v.y + v.z * v.z then
    v.scale (1 / Real.sqrt (v.x * v.x + v.y * v.y + v.z * v.z))
  else v

/-- FVector::DistSquared. -/
def distSquared (a b : FVector) : ℝ :=
  (b.x - a.x) * (b.x - a.x) + (b.y - a.y) * (b.y - a.y) + (b.z - a.z) * (b.z - a.z)

/-- FVector::Distance: square root of FVector::DistSquared. -/
def distance (a b : FVector) : ℝ := Real.sqrt (distSquared a b)

end FVector

/-- UGameplayUtilsBPLibrary::CalculateJumpVelocity, transcribed statement by
statement from the source: the horizontal direction is the target-minus-start
offset with its Z component zeroed; its length is taken, then the direction is
normalized (engine semantics, with the SMALL_NUMBER tolerance guard); the
horizontal velocity is the normalized direction scaled by distance over time,
and the vertical velocity solves z = z0 + v0 t + a t^2 / 2 for v0. -/
def calculateJumpVelocity (startPos targetPos : FVector) (gravityZ jumpTime : ℝ) : FVector :=
  let direction0 := targetPos.sub startPos
  let zDiff := direction0.z
  let direction1 : FVector := ⟨direction0.x, direction0.y, 0⟩
  let xyDistance := direction1.size
  let direction2 := direction1.normalize
  let xyVelocity := direction2.scale (xyDistance / jumpTime)
  let zVelocity := (zDiff - 0.5 * gravityZ * jumpTime * jumpTime) / jumpTime
  ⟨xyVelocity.x, xyVelocity.y, zVelocity⟩

/-- An actor reference: an opaque identity tag together with the position that
GetActorLocation reports.  A null AActor pointer is modelled as
`Option.none` at the use sites. -/
structure Actor where
  tag : ℕ
  loc : FVector

/-- Output bundle of UGameplayUtilsBPLibrary::FindClosestActor: the boolean
return value and the two out-parameters. -/
structure FindClosestResult where
  found : Bool
  closestActor : Option Actor
  closestDistance : ℝ

/-- The scan loop of FindClosestActor: null entries are skipped; a non-null
entry replaces the running best exactly when its distance is strictly less
than the running best distance. -/
def findClosestLoop (source : FVector) :
    List (Option Actor) → Option Actor × ℝ → Option Actor × ℝ
  | [], acc => acc
  | none :: rest, acc => findClosestLoop source rest acc
  | some a :: rest, acc =>
    findClosestLoop source rest
      (if FVector.distance source a.loc < acc.2
        then (some a, FVector.distance source a.loc) else acc)

/-- The same loop restricted to the non-null entries (helper for proofs: the
scan loop ignores null entries, so it factors through `List.filterMap id`). -/
def findClosestLoopA (source : FVector) :
    List Actor → Option Actor × ℝ → Option Actor × ℝ
  | [], acc => acc
  | a :: rest, acc =>
    findClosestLoopA source rest
      (if FVector.distance source a.loc < acc.2
        then (some a, FVector.distance source a.loc) else acc)

/-- The scan loop instrumented with a log of every actor whose position is
queried (one GetActorLocation call per `some` entry reached). -/
def findClosestLoopLogged (source : FVector) :
    List (Option Actor) → Option Actor × ℝ → List Actor →
      (Option Actor × ℝ) × List Actor
  | [], acc, log => (acc, log)
  | none :: rest, acc, log => findClosestLoopLogged source rest acc log
  | some a :: rest, acc, log =>
    findClosestLoopLogged source rest
      (if FVector.distance source a.loc < acc.2
        then (some a, FVector.distance source a.loc) else acc)
      (log ++ [a])

/-- UGameplayUtilsBPLibrary::FindClosestActor: out-parameters are initialised
to null and MAX_FLT; an empty array returns false immediately; otherwise the
array is scanned and the boolean result is whether the best actor is
non-null. -/
def findClosestActor (source : FVector) (actorArray : List (Option Actor)) :
    FindClosestResult :=
  if actorArray.length = 0 then ⟨false, none, MAX_FLT⟩
  else
    let r := findClosestLoop source actorArray (none, MAX_FLT)
    ⟨r.1.isSome, r.1, r.2⟩

/-- Truncation toward zero on the reals (the C `trunc`, used by `fmod`). -/
def truncTowardZero (y : ℝ) : ℝ := if 0 ≤ y then (⌊y⌋ : ℤ) else (⌈y⌉ : ℤ)

/-- C `fmod`: `a - b * trunc (a / b)`, the remainder with the sign of `a`. -/
def fmod (a b : ℝ) : ℝ := a - b * truncTowardZero (a / b)

/-- Unreal's FRotator: Euler angles in degrees, modelled as real numbers. -/
@[ext]
structure FRotator where
  pitch : ℝ
  yaw : ℝ
  roll : ℝ

/-- Unreal's FQuat, components modelled as real numbers. -/
@[ext]
structure FQuat where
  x : ℝ
  y : ℝ
  z : ℝ
  w : ℝ

namespace FQuat

/-- Quaternion componentwise dot product (the `RawCosom` of FQuat::Slerp). -/
def dot (a b : FQuat) : ℝ := a.x * b.x + a.y * b.y + a.z * b.z + a.w * b.w

/-- FQuat::SizeSquared. -/
def normSq (q : FQuat) : ℝ := q.x * q.x + q.y * q.y + q.z * q.z + q.w * q.w

/-- Componentwise quaternion negation (the same rotation). -/
def negate (q : FQuat) : FQuat := ⟨-q.x, -q.y, -q.z, -q.w⟩

/-- FQuat::GetNormalized with the default tolerance SMALL_NUMBER: scales by
the inverse square root of the squared length when that is at least the
tolerance, and returns the identity quaternion otherwise. -/
def getNormalized (q : FQuat) : FQuat :=
  if SMALL_NUMBER ≤ q.normSq then
    ⟨q.x * (1 / Real.sqrt q.normSq), q.y * (1 / Real.sqrt q.normSq),
     q.z * (1 / Real.sqrt q.normSq), q.w * (1 / Real.sqrt q.normSq)⟩
  else ⟨0, 0, 0, 1⟩

/-- FQuat::RotateVector: `V + W * (2 Q x V) + Q x (2 Q x V)` with
`Q = (X, Y, Z)`. -/
def rotateVector (q : FQuat) (v : FVector) : FVector :=
  let qv : FVector := ⟨q.x, q.y, q.z⟩
  let tt := (qv.cross v).scale 2
  (v.add (tt.scale q.w)).add (qv.cross tt)

/-- Two quaternions denote the same spatial orientation when they rotate every
vector identically. -/
def sameOrientation (p q : FQuat) : Prop :=
  ∀ v : FVector, p.rotateVector v = q.rotateVector v

end FQuat

/-- The `Cosom` of FQuat::Slerp: the raw dot product with a compensated sign,
`FloatSelect(RawCosom, RawCosom, -RawCosom)`. -/
def cosomOf (q1 q2 : FQuat) : ℝ :=
  floatSelect (q1.dot q2) (q1.dot q2) (-(q1.dot q2))

/-- The pair (Scale0, Scale1-before-sign-compensation) of FQuat::Slerp: the
spherical weights `sin((1-t) W) / sin W` and `sin(t W) / sin W` with
`W = acos(Cosom)` when `Cosom < 0.9999`, and the linear weights `1-t` and `t`
otherwise.  FMath::Acos clamps its argument into [-1, 1], which is exactly
the behaviour of Real.arccos. -/
def slerpScales (cosom t : ℝ) : ℝ × ℝ :=
  if cosom < 0.9999 then
    (Real.sin ((1 - t) * Real.arccos cosom) * (1 / Real.sin (Real.arccos cosom)),
     Real.sin (t * Real.arccos cosom) * (1 / Real.sin (Real.arccos cosom)))
  else (1 - t, t)

/-- Scale0 of FQuat::Slerp. -/
def slerpScale0 (q1 q2 : FQuat) (t : ℝ) : ℝ := (slerpScales (cosomOf q1 q2) t).1

/-- Scale1 of FQuat::Slerp, after the sign compensation
`FloatSelect(RawCosom, Scale1, -Scale1)` that makes the interpolation take the
shorter arc. -/
def slerpScale1 (q1 q2 : FQuat) (t : ℝ) : ℝ :=
  floatSelect (q1.dot q2) (slerpScales (cosomOf q1 q2) t).2
    (-(slerpScales (cosomOf q1 q2) t).2)

/-- FQuat::Slerp_NotNormalized. -/
def slerpNotNormalized (q1 q2 : FQuat) (t : ℝ) : FQuat :=
  ⟨slerpScale0 q1 q2 t * q1.x + slerpScale1 q1 q2 t * q2.x,
   slerpScale0 q1 q2 t * q1.y + slerpScale1 q1 q2 t * q2.y,
   slerpScale0 q1 q2 t * q1.z + slerpScale1 q1 q2 t * q2.z,
   slerpScale0 q1 q2 t * q1.w + slerpScale1 q1 q2 t * q2.w⟩

/-- FQuat::Slerp: the unnormalized spherical interpolation, renormalized. -/
def FQuat.slerp (q1 q2 : FQuat) (t : ℝ) : FQuat :=
  (slerpNotNormalized q1 q2 t).getNormalized

/-- FRotator::Quaternion (UE5 form): each Euler angle is wrapped by
`fmod 360`, halved and converted to radians, and the quaternion components
are assembled from the sines and cosines of those half-angles. -/
def FRotator.quaternion (r : FRotator) : FQuat :=
  let RADS_DIVIDED_BY_2 := Real.pi / 180 / 2
  let SP := Real.sin (fmod r.pitch 360 * RADS_DIVIDED_BY_2)
  let CP := Real.cos (fmod r.pitch 360 * RADS_DIVIDED_BY_2)
  let SY := Real.sin (fmod r.yaw 360 * RADS_DIVIDED_BY_2)
  let CY := Real.cos (fmod r.yaw 360 * RADS_DIVIDED_BY_2)
  let SR := Real.sin (fmod r.roll 360 * RADS_DIVIDED_BY_2)
  let CR := Real.cos (fmod r.roll 360 * RADS_DIVIDED_BY_2)
  ⟨CR * SP * SY - SR * CP * CY,
   -CR * SP * CY - SR * CP * SY,
   CR * CP * SY - SR * SP * CY,
   CR * CP * CY + SR * SP * SY⟩

/-- The two-argument arctangent (FMath::Atan2 in the engine's double-precision
math), defined by quadrant correction of Real.arctan. -/
def atan2 (y x : ℝ) : ℝ :=
  if 0 < x then Real.arctan (y / x)
  else if x < 0 then
    (if 0 ≤ y then Real.arctan (y / x) + Real.pi else Real.arctan (y / x) - Real.pi)
  else if 0 < y then Real.pi / 2
  else if y < 0 then -(Real.pi / 2)
  else 0

/-- The constant FASTASIN_HALF_PI used by FMath::FastAsin. -/
def fastAsinHalfPi : ℝ := 1.5707963050

/-- FMath::FastAsin: the engine's 7-degree minimax approximation of arcsine,
transcribed coefficient by coefficient. -/
def fastAsin (value : ℝ) : ℝ :=
  let x := |value|
  let omx := if 1 - x < 0 then 0 else 1 - x
  let root := Real.sqrt omx
  let approx :=
    ((((((-0.0012624911 * x + 0.0066700901) * x - 0.0170881256) * x
      + 0.0308918810) * x - 0.0501743046) * x + 0.0889789874) * x
      - 0.2145988016) * x + fastAsinHalfPi
  let result := approx * root
  if 0 ≤ value then fastAsinHalfPi - result else result - fastAsinHalfPi

/-- FRotator::ClampAxis: wrap an angle into [0, 360). -/
def FRotator.clampAxis (angle : ℝ) : ℝ :=
  let a := fmod angle 360
  if a < 0 then a + 360 else a

/-- FRotator::NormalizeAxis: wrap an angle into (-180, 180]. -/
def FRotator.normalizeAxis (angle : ℝ) : ℝ :=
  let a := FRotator.clampAxis angle
  if 180 < a then a - 360 else a

/-- FQuat::Rotator: quaternion to Euler angles, with the gimbal-lock
singularity branches of the engine source. -/
def FQuat.rotator (q : FQuat) : FRotator :=
  let singularityTest := q.z * q.x - q.w * q.y
  let yawY := 2 * (q.w * q.z + q.x * q.y)
  let yawX := 1 - 2 * (q.y * q.y + q.z * q.z)
  let RAD_TO_DEG := 180 / Real.pi
  if singularityTest < -0.4999995 then
    ⟨-90, atan2 yawY yawX * RAD_TO_DEG,
     FRotator.normalizeAxis
       (-(atan2 yawY yawX * RAD_TO_DEG) - 2 * atan2 q.x q.w * RAD_TO_DEG)⟩
  else if 0.4999995 < singularityTest then
    ⟨90, atan2 yawY yawX * RAD_TO_DEG,
     FRotator.normalizeAxis
       ((atan2 yawY yawX * RAD_TO_DEG) - 2 * atan2 q.x q.w * RAD_TO_DEG)⟩
  else
    ⟨fastAsin (2 * singularityTest) * RAD_TO_DEG,
     atan2 yawY yawX * RAD_TO_DEG,
     atan2 (-2 * (q.w * q.x + q.y * q.z)) (1 - 2 * (q.x * q.x + q.y * q.y)) *
       RAD_TO_DEG⟩

/-- The intermediate ResultQuat of UGameplayUtilsBPLibrary::SmoothRotatorInterp:
both rotators are converted to quaternions which are spherically interpolated
at the clamped parameter `Clamp(DeltaTime * InterpSpeed, 0, 1)`. -/
def resultQuat (current target : FRotator) (deltaTime interpSpeed : ℝ) : FQuat :=
  FQuat.slerp current.quaternion target.quaternion
    (clamp (deltaTime * interpSpeed) 0 1)

/-- UGameplayUtilsBPLibrary::SmoothRotatorInterp: the interpolated quaternion
converted back to a rotator. -/
def smoothRotatorInterp (current target : FRotator) (deltaTime interpSpeed : ℝ) :
    FRotator :=
  (resultQuat current target deltaTime interpSpeed).rotator

/-! ### The ballistic solver -/

lemma small_number_pos : (0 : ℝ) < SMALL_NUMBER := by norm_num [SMALL_NUMBER]

lemma jump_z (s t : FVector) (g T : ℝ) :
    (calculateJumpVelocity s t g T).z = (t.z - s.z - 0.5 * g * T * T) / T := rfl

lemma jump_x_shape (s t : FVector) (g T : ℝ) :
    (calculateJumpVelocity s t g T).x =
      (FVector.normalize ⟨t.x - s.x, t.y - s.y, 0⟩).x *
        (FVector.size ⟨t.x - s.x, t.y - s.y, 0⟩ / T) := rfl

lemma jump_y_shape (s t : FVector) (g T : ℝ) :
    (calculateJumpVelocity s t g T).y =
      (FVector.normalize ⟨t.x - s.x, t.y - s.y, 0⟩).y *
        (FVector.size ⟨t.x - s.x, t.y - s.y, 0⟩ / T) := rfl

/-- In the nondegenerate regime (squared horizontal length above the
normalization tolerance) the horizontal velocity is per-axis distance over
time. -/
lemma jump_xy_nondegenerate (s t : FVector) (g T : ℝ)
    (h : SMALL_NUMBER < (t.x - s.x) * (t.x - s.x) + (t.y - s.y) * (t.y - s.y)) :
    (calculateJumpVelocity s t g T).x = (t.x - s.x) / T ∧
      (calculateJumpVelocity s t g T).y = (t.y - s.y) / T := by
  have hq : (t.x - s.x) * (t.x - s.x) + (t.y - s.y) * (t.y - s.y) + 0 * 0
      = (t.x - s.x) * (t.x - s.x) + (t.y - s.y) * (t.y - s.y) := by ring
  have hpos : 0 < (t.x - s.x) * (t.x - s.x) + (t.y - s.y) * (t.y - s.y) :=
    small_number_pos.trans h
  have hs : Real.sqrt ((t.x - s.x) * (t.x - s.x) + (t.y - s.y) * (t.y - s.y)) ≠ 0 :=
    ne_of_gt (Real.sqrt_pos.mpr hpos)
  constructor
  · rw [jump_x_shape]
    simp only [FVector.normalize, FVector.size, FVector.scale, hq]
    rw [if_pos h]
    calc (t.x - s.x) * (1 / Real.sqrt ((t.x - s.x) * (t.x - s.x) + (t.y - s.y) * (t.y - s.y)))
        * (Real.sqrt ((t.x - s.x) * (t.x - s.x) + (t.y - s.y) * (t.y - s.y)) / T)
        = Real.sqrt ((t.x - s.x) * (t.x - s.x) + (t.y - s.y) * (t.y - s.y))
          * (Real.sqrt ((t.x - s.x) * (t.x - s.x) + (t.y - s.y) * (t.y - s.y)))⁻¹
          * ((t.x - s.x) / T) := by rw [one_div]; ring
      _ = (t.x - s.x) / T := by rw [mul_inv_cancel₀ hs, one_mul]
  · rw [jump_y_shape]
    simp only [FVector.normalize, FVector.size, FVector.scale, hq]
    rw [if_pos h]
    calc (t.y - s.y) * (1 / Real.sqrt ((t.x - s.x) * (t.x - s.x) + (t.y - s.y) * (t.y - s.y)))
        * (Real.sqrt ((t.x - s.x) * (t.x - s.x) + (t.y - s.y) * (t.y - s.y)) / T)
        = Real.sqrt ((t.x - s.x) * (t.x - s.x) + (t.y - s.y) * (t.y - s.y))
          * (Real.sqrt ((t.x - s.x) * (t.x - s.x) + (t.y - s.y) * (t.y - s.y)))⁻¹
          * ((t.y - s.y) / T) := by rw [one_div]; ring
      _ = (t.y - s.y) / T := by rw [mul_inv_cancel₀ hs, one_mul]

/-- With identical start and target XY the horizontal velocity components are
exactly zero, whichever branch the normalization takes. -/
lemma jump_xy_zero (s t : FVector) (g T : ℝ) (hx : t.x = s.x) (hy : t.y = s.y) :
    (calculateJumpVelocity s t g T).x = 0 ∧ (calculateJumpVelocity s t g T).y = 0 := by
  constructor
  · rw [jump_x_shape]
    simp only [FVector.normalize, FVector.size, FVector.scale, hx, hy, sub_self]
    split
    · simp
    · simp
  · rw [jump_y_shape]
    simp only [FVector.normalize, FVector.size, FVector.scale, hx, hy, sub_self]
    split
    · simp
    · simp

/-- Claim C1 (amended): for every start, target, gravity and jump time `T > 0`,
provided the horizontal offset is exactly zero or its squared length exceeds
the engine normalization tolerance SMALL_NUMBER = 1e-8, the velocity returned
by CalculateJumpVelocity has components `(dx/T, dy/T, (dz - g T^2 / 2)/T)` and
satisfies the ballistic equation `start + v0 T + (0,0,g) T^2 / 2 = target`
componentwise. -/
theorem claim_C1_amended (s t : FVector) (g T : ℝ) (hT : 0 < T)
    (hnd : (t.x - s.x = 0 ∧ t.y - s.y = 0) ∨
      SMALL_NUMBER < (t.x - s.x) * (t.x - s.x) + (t.y - s.y) * (t.y - s.y)) :
    (calculateJumpVelocity s t g T).x = (t.x - s.x) / T ∧
    (calculateJumpVelocity s t g T).y = (t.y - s.y) / T ∧
    (calculateJumpVelocity s t g T).z = (t.z - s.z - 0.5 * g * T * T) / T ∧
    s.x + (calculateJumpVelocity s t g T).x * T = t.x ∧
    s.y + (calculateJumpVelocity s t g T).y * T = t.y ∧
    s.z + (calculateJumpVelocity s t g T).z * T + 0.5 * g * T * T = t.z := by
  have hT0 : T ≠ 0 := ne_of_gt hT
  have hxy : (calculateJumpVelocity s t g T).x = (t.x - s.x) / T ∧
      (calculateJumpVelocity s t g T).y = (t.y - s.y) / T := by
    rcases hnd with ⟨hx, hy⟩ | h
    · have hx' : t.x = s.x := by linarith
      have hy' : t.y = s.y := by linarith
      have h0 := jump_xy_zero s t g T hx' hy'
      rw [h0.1, h0.2, hx, hy, zero_div]
      exact ⟨rfl, rfl⟩
    · exact jump_xy_nondegenerate s t g T h
  refine ⟨hxy.1, hxy.2, jump_z s t g T, ?_, ?_, ?_⟩
  · rw [hxy.1, div_mul_cancel₀ _ hT0]; ring
  · rw [hxy.2, div_mul_cancel₀ _ hT0]; ring
  · rw [jump_z, div_mul_cancel₀ _ hT0]; ring

/-- Witness for claim C1 at start (0,0,0), target (3,4,5), g = -10, T = 2. -/
theorem claim_C1_witness :
    (calculateJumpVelocity ⟨0, 0, 0⟩ ⟨3, 4, 5⟩ (-10) 2).x = ((3:ℝ) - 0) / 2 ∧
    (calculateJumpVelocity ⟨0, 0, 0⟩ ⟨3, 4, 5⟩ (-10) 2).y = ((4:ℝ) - 0) / 2 ∧
    (calculateJumpVelocity ⟨0, 0, 0⟩ ⟨3, 4, 5⟩ (-10) 2).z
      = ((5:ℝ) - 0 - 0.5 * (-10) * 2 * 2) / 2 ∧
    (0:ℝ) + (calculateJumpVelocity ⟨0, 0, 0⟩ ⟨3, 4, 5⟩ (-10) 2).x * 2 = 3 ∧
    (0:ℝ) + (calculateJumpVelocity ⟨0, 0, 0⟩ ⟨3, 4, 5⟩ (-10) 2).y * 2 = 4 ∧
    (0:ℝ) + (calculateJumpVelocity ⟨0, 0, 0⟩ ⟨3, 4, 5⟩ (-10) 2).z * 2
      + 0.5 * (-10) * 2 * 2 = 5 :=
  claim_C1_amended ⟨0, 0, 0⟩ ⟨3, 4, 5⟩ (-10) 2 (by norm_num)
    (Or.inr (by norm_num [SMALL_NUMBER]))

/-- At a horizontal offset of 1e-5 the squared length 1e-10 is below the
normalization tolerance, the direction stays unnormalized, and the returned
horizontal velocity is 1e-10 instead of 1e-5. -/
lemma jump_tiny_x :
    (calculateJumpVelocity ⟨0, 0, 0⟩ ⟨1/100000, 0, 0⟩ 0 1).x = 1/10000000000 := by
  have hcond : ¬ (SMALL_NUMBER <
      ((1:ℝ)/100000 - 0) * ((1:ℝ)/100000 - 0) + ((0:ℝ) - 0) * ((0:ℝ) - 0) + 0 * 0) := by
    norm_num [SMALL_NUMBER]
  have hsq : ((1:ℝ)/100000 - 0) * ((1:ℝ)/100000 - 0) + ((0:ℝ) - 0) * ((0:ℝ) - 0) + 0 * 0
      = ((1:ℝ)/100000) ^ 2 := by norm_num
  have hsize : FVector.size ⟨(1:ℝ)/100000 - 0, (0:ℝ) - 0, 0⟩ = 1/100000 := by
    simp only [FVector.size]
    rw [hsq]
    exact Real.sqrt_sq (by norm_num)
  have hnorm : FVector.normalize ⟨(1:ℝ)/100000 - 0, (0:ℝ) - 0, 0⟩
      = ⟨(1:ℝ)/100000 - 0, (0:ℝ) - 0, 0⟩ := by
    simp only [FVector.normalize]
    rw [if_neg hcond]
  rw [jump_x_shape, hnorm, hsize]
  norm_num

/-- Counterexample to claim C1 as stated: at start (0,0,0),
target (1e-5, 0, 0), g = 0, T = 1 the returned x velocity is not
(target.x - start.x) / T. -/
theorem claim_C1_counterexample :
    (calculateJumpVelocity ⟨0, 0, 0⟩ ⟨1/100000, 0, 0⟩ 0 1).x
      ≠ ((1:ℝ)/100000 - 0) / 1 := by
  rw [jump_tiny_x]
  norm_num

/-- Claim C5: with identical start and target XY coordinates, the horizontal
components of the returned velocity are exactly zero (the engine normalization
leaves the zero vector unchanged rather than dividing by zero, so no
ill-defined value arises). -/
theorem claim_C5 (s t : FVector) (g T : ℝ) (_hT : 0 < T)
    (hx : t.x = s.x) (hy : t.y = s.y) :
    (calculateJumpVelocity s t g T).x = 0 ∧ (calculateJumpVelocity s t g T).y = 0 :=
  jump_xy_zero s t g T hx hy

/-- Witness for claim C5 at start = target = (1,2,3), g = -980, T = 2. -/
theorem claim_C5_witness :
    (calculateJumpVelocity ⟨1, 2, 3⟩ ⟨1, 2, 9⟩ (-980) 2).x = 0 ∧
    (calculateJumpVelocity ⟨1, 2, 3⟩ ⟨1, 2, 9⟩ (-980) 2).y = 0 :=
  claim_C5 ⟨1, 2, 3⟩ ⟨1, 2, 9⟩ (-980) 2 (by norm_num) rfl rfl

/-- Claim C8 (amended): scaling the horizontal offset by `k` (holding Z fixed)
scales the horizontal velocity by `k` and leaves the vertical velocity
unchanged, provided the horizontal offset is exactly zero or both the original
and the scaled squared horizontal lengths exceed the normalization tolerance
SMALL_NUMBER = 1e-8. -/
theorem claim_C8_amended (s t : FVector) (g T k : ℝ) (_hT : 0 < T)
    (hnd : (t.x - s.x = 0 ∧ t.y - s.y = 0) ∨
      (SMALL_NUMBER < (t.x - s.x) * (t.x - s.x) + (t.y - s.y) * (t.y - s.y) ∧
       SMALL_NUMBER < (k * (t.x - s.x)) * (k * (t.x - s.x))
          + (k * (t.y - s.y)) * (k * (t.y - s.y)))) :
    (calculateJumpVelocity s ⟨s.x + k * (t.x - s.x), s.y + k * (t.y - s.y), t.z⟩ g T).x
      = k * (calculateJumpVelocity s t g T).x ∧
    (calculateJumpVelocity s ⟨s.x + k * (t.x - s.x), s.y + k * (t.y - s.y), t.z⟩ g T).y
      = k * (calculateJumpVelocity s t g T).y ∧
    (calculateJumpVelocity s ⟨s.x + k * (t.x - s.x), s.y + k * (t.y - s.y), t.z⟩ g T).z
      = (calculateJumpVelocity s t g T).z := by
  have e1 : (⟨s.x + k * (t.x - s.x), s.y + k * (t.y - s.y), t.z⟩ : FVector).x - s.x
      = k * (t.x - s.x) := by
    show s.x + k * (t.x - s.x) - s.x = k * (t.x - s.x); ring
  have e2 : (⟨s.x + k * (t.x - s.x), s.y + k * (t.y - s.y), t.z⟩ : FVector).y - s.y
      = k * (t.y - s.y) := by
    show s.y + k * (t.y - s.y) - s.y = k * (t.y - s.y); ring
  refine ⟨?_, ?_, rfl⟩
  · rcases hnd with ⟨hx, hy⟩ | ⟨h1, h2⟩
    · have hx' : t.x = s.x := by linarith
      have hy' : t.y = s.y := by linarith
      have h0 := jump_xy_zero s t g T hx' hy'
      have h0' := jump_xy_zero s ⟨s.x + k * (t.x - s.x), s.y + k * (t.y - s.y), t.z⟩ g T
        (by show s.x + k * (t.x - s.x) = s.x; rw [hx]; ring)
        (by show s.y + k * (t.y - s.y) = s.y; rw [hy]; ring)
      rw [h0.1, h0'.1, mul_zero]
    · have h2' := jump_xy_nondegenerate s
        ⟨s.x + k * (t.x - s.x), s.y + k * (t.y - s.y), t.z⟩ g T (by rw [e1, e2]; exact h2)
      have h1' := jump_xy_nondegenerate s t g T h1
      rw [h2'.1, h1'.1, e1, mul_div_assoc]
  · rcases hnd with ⟨hx, hy⟩ | ⟨h1, h2⟩
    · have hx' : t.x = s.x := by linarith
      have hy' : t.y = s.y := by linarith
      have h0 := jump_xy_zero s t g T hx' hy'
      have h0' := jump_xy_zero s ⟨s.x + k * (t.x - s.x), s.y + k * (t.y - s.y), t.z⟩ g T
        (by show s.x + k * (t.x - s.x) = s.x; rw [hx]; ring)
        (by show s.y + k * (t.y - s.y) = s.y; rw [hy]; ring)
      rw [h0.2, h0'.2, mul_zero]
    · have h2' := jump_xy_nondegenerate s
        ⟨s.x + k * (t.x - s.x), s.y + k * (t.y - s.y), t.z⟩ g T (by rw [e1, e2]; exact h2)
      have h1' := jump_xy_nondegenerate s t g T h1
      rw [h2'.2, h1'.2, e2, mul_div_assoc]

/-- Witness for claim C8 at start (0,0,0), target (3,4,7), k = 2, g = 5,
T = 1. -/
theorem claim_C8_witness :
    (calculateJumpVelocity ⟨0, 0, 0⟩
      ⟨(0:ℝ) + 2 * (3 - 0), (0:ℝ) + 2 * (4 - 0), 7⟩ 5 1).x
      = 2 * (calculateJumpVelocity ⟨0, 0, 0⟩ ⟨3, 4, 7⟩ 5 1).x ∧
    (calculateJumpVelocity ⟨0, 0, 0⟩
      ⟨(0:ℝ) + 2 * (3 - 0), (0:ℝ) + 2 * (4 - 0), 7⟩ 5 1).y
      = 2 * (calculateJumpVelocity ⟨0, 0, 0⟩ ⟨3, 4, 7⟩ 5 1).y ∧
    (calculateJumpVelocity ⟨0, 0, 0⟩
      ⟨(0:ℝ) + 2 * (3 - 0), (0:ℝ) + 2 * (4 - 0), 7⟩ 5 1).z
      = (calculateJumpVelocity ⟨0, 0, 0⟩ ⟨3, 4, 7⟩ 5 1).z :=
  claim_C8_amended ⟨0, 0, 0⟩ ⟨3, 4, 7⟩ 5 1 2 (by norm_num)
    (Or.inr ⟨by norm_num [SMALL_NUMBER], by norm_num [SMALL_NUMBER]⟩)

/-- Counterexample to claim C8 as stated: at a horizontal offset of 1e-5 and
k = 100, the original call sits inside the normalization dead band but the
scaled call does not, so the x velocity is not scaled by k. -/
theorem claim_C8_counterexample :
    (calculateJumpVelocity ⟨0, 0, 0⟩
      ⟨(0:ℝ) + 100 * (1/100000 - 0), (0:ℝ) + 100 * (0 - 0), 0⟩ 0 1).x
      ≠ 100 * (calculateJumpVelocity ⟨0, 0, 0⟩ ⟨1/100000, 0, 0⟩ 0 1).x := by
  have h := jump_xy_nondegenerate ⟨0, 0, 0⟩
    ⟨(0:ℝ) + 100 * (1/100000 - 0), (0:ℝ) + 100 * (0 - 0), 0⟩ 0 1
    (by norm_num [SMALL_NUMBER])
  rw [h.1, jump_tiny_x]
  norm_num

/-- Claim C9: the horizontal components of the result depend only on the XY
coordinates of start and target and on T, and the vertical component depends
only on the Z coordinates, the gravity and T. -/
theorem claim_C9 (s1 t1 s2 t2 : FVector) (g1 g2 T : ℝ) (_hT : 0 < T) :
    ((s1.x = s2.x ∧ s1.y = s2.y ∧ t1.x = t2.x ∧ t1.y = t2.y) →
      (calculateJumpVelocity s1 t1 g1 T).x = (calculateJumpVelocity s2 t2 g2 T).x ∧
      (calculateJumpVelocity s1 t1 g1 T).y = (calculateJumpVelocity s2 t2 g2 T).y) ∧
    ((s1.z = s2.z ∧ t1.z = t2.z ∧ g1 = g2) →
      (calculateJumpVelocity s1 t1 g1 T).z = (calculateJumpVelocity s2 t2 g2 T).z) := by
  constructor
  · rintro ⟨e1, e2, e3, e4⟩
    have ex : t1.x - s1.x = t2.x - s2.x := by rw [e1, e3]
    have ey : t1.y - s1.y = t2.y - s2.y := by rw [e2, e4]
    constructor
    · rw [jump_x_shape, jump_x_shape, ex, ey]
    · rw [jump_y_shape, jump_y_shape, ex, ey]
  · rintro ⟨f1, f2, f3⟩
    rw [jump_z, jump_z, f1, f2, f3]

/-- Witness for claim C9: two calls differing only in gravity and Z data agree
on XY, and two calls differing only in XY data agree on Z. -/
theorem claim_C9_witness :
    ((calculateJumpVelocity ⟨1, 2, 3⟩ ⟨4, 6, 5⟩ (-10) 2).x
        = (calculateJumpVelocity ⟨1, 2, 30⟩ ⟨4, 6, 60⟩ 7 2).x ∧
      (calculateJumpVelocity ⟨1, 2, 3⟩ ⟨4, 6, 5⟩ (-10) 2).y
        = (calculateJumpVelocity ⟨1, 2, 30⟩ ⟨4, 6, 60⟩ 7 2).y) ∧
    (calculateJumpVelocity ⟨1, 2, 3⟩ ⟨9, 9, 5⟩ (-10) 2).z
      = (calculateJumpVelocity ⟨8, 1, 3⟩ ⟨0, 0, 5⟩ (-10) 2).z :=
  ⟨(claim_C9 ⟨1, 2, 3⟩ ⟨4, 6, 5⟩ ⟨1, 2, 30⟩ ⟨4, 6, 60⟩ (-10) 7 2 (by norm_num)).1
      ⟨rfl, rfl, rfl, rfl⟩,
    (claim_C9 ⟨1, 2, 3⟩ ⟨9, 9, 5⟩ ⟨8, 1, 3⟩ ⟨0, 0, 5⟩ (-10) (-10) 2 (by norm_num)).2
      ⟨rfl, rfl, rfl⟩⟩

/-! ### The nearest-actor finder -/

lemma findClosestLoop_eq_loopA (source : FVector) (L : List (Option Actor))
    (acc : Option Actor × ℝ) :
    findClosestLoop source L acc = findClosestLoopA source (L.filterMap id) acc := by
  induction L generalizing acc with
  | nil => rfl
  | cons hd rest ih =>
    cases hd with
    | none =>
      have hfm : (none :: rest : List (Option Actor)).filterMap id = rest.filterMap id := by
        simp
      rw [hfm]
      simp only [findClosestLoop]
      exact ih acc
    | some a =>
      have hfm : (some a :: rest : List (Option Actor)).filterMap id
          = a :: rest.filterMap id := by simp
      rw [hfm]
      simp only [findClosestLoop, findClosestLoopA]
      exact ih _

lemma loopA_le (source : FVector) (L : List Actor) :
    ∀ acc : Option Actor × ℝ,
      (findClosestLoopA source L acc).2 ≤ acc.2 ∧
      ∀ a ∈ L, (findClosestLoopA source L acc).2 ≤ FVector.distance source a.loc := by
  induction L with
  | nil =>
    intro acc
    exact ⟨le_refl _, by simp⟩
  | cons a rest ih =>
    intro acc
    simp only [findClosestLoopA]
    by_cases h : FVector.distance source a.loc < acc.2
    · rw [if_pos h]
      obtain ⟨h1, h2⟩ := ih (some a, FVector.distance source a.loc)
      refine ⟨h1.trans (le_of_lt h), ?_⟩
      intro b hb
      rcases List.mem_cons.mp hb with rfl | hb'
      · exact h1
      · exact h2 b hb'
    · rw [if_neg h]
      obtain ⟨h1, h2⟩ := ih acc
      refine ⟨h1, ?_⟩
      intro b hb
      rcases List.mem_cons.mp hb with rfl | hb'
      · exact h1.trans (not_lt.mp h)
      · exact h2 b hb'

lemma loopA_mem (source : FVector) (L : List Actor) :
    ∀ acc : Option Actor × ℝ,
      findClosestLoopA source L acc = acc ∨
      ∃ a ∈ L, findClosestLoopA source L acc = (some a, FVector.distance source a.loc) := by
  induction L with
  | nil => exact fun acc => Or.inl rfl
  | cons a rest ih =>
    intro acc
    simp only [findClosestLoopA]
    by_cases h : FVector.distance source a.loc < acc.2
    · rw [if_pos h]
      rcases ih (some a, FVector.distance source a.loc) with heq | ⟨b, hb, heq⟩
      · exact Or.inr ⟨a, List.mem_cons_self a rest, heq⟩
      · exact Or.inr ⟨b, List.mem_cons_of_mem a hb, heq⟩
    · rw [if_neg h]
      rcases ih acc with heq | ⟨b, hb, heq⟩
      · exact Or.inl heq
      · exact Or.inr ⟨b, List.mem_cons_of_mem a hb, heq⟩

lemma loopA_const (source : FVector) (L : List Actor) :
    ∀ acc : Option Actor × ℝ,
      (∀ a ∈ L, acc.2 ≤ FVector.distance source a.loc) →
      findClosestLoopA source L acc = acc := by
  induction L with
  | nil => intro acc _; rfl
  | cons a rest ih =>
    intro acc h
    simp only [findClosestLoopA]
    rw [if_neg (not_lt.mpr (h a (List.mem_cons_self a rest)))]
    exact ih acc (fun b hb => h b (List.mem_cons_of_mem a hb))

lemma loopA_append (source : FVector) (L1 L2 : List Actor) :
    ∀ acc : Option Actor × ℝ,
      findClosestLoopA source (L1 ++ L2) acc
        = findClosestLoopA source L2 (findClosestLoopA source L1 acc) := by
  induction L1 with
  | nil => intro acc; rfl
  | cons a rest ih =>
    intro acc
    simp only [List.cons_append, findClosestLoopA]
    exact ih _

lemma findClosestActor_eq (source : FVector) (L : List (Option Actor)) (h : L ≠ []) :
    findClosestActor source L =
      ⟨(findClosestLoopA source (L.filterMap id) (none, MAX_FLT)).1.isSome,
       (findClosestLoopA source (L.filterMap id) (none, MAX_FLT)).1,
       (findClosestLoopA source (L.filterMap id) (none, MAX_FLT)).2⟩ := by
  have hlen : ¬ (L.length = 0) := by simpa [List.length_eq_zero] using h
  simp only [findClosestActor, if_neg hlen, findClosestLoop_eq_loopA]

lemma distance_eval (a b : FVector) (r : ℝ) (hr : 0 ≤ r)
    (h : FVector.distSquared a b = r ^ 2) : FVector.distance a b = r := by
  rw [FVector.distance, h]
  exact Real.sqrt_sq hr

/-- The distance from the origin to (3e38, 3e38, 0) is at least MAX_FLT, so
the strict-less test against the MAX_FLT sentinel never accepts this actor. -/
lemma far_loc_not_lt :
    ¬ (FVector.distance ⟨0, 0, 0⟩ ⟨3e38, 3e38, 0⟩ < MAX_FLT) := by
  have h : MAX_FLT ≤ FVector.distance ⟨0, 0, 0⟩ ⟨3e38, 3e38, 0⟩ := by
    rw [FVector.distance]
    rw [Real.le_sqrt (by norm_num [MAX_FLT]) (by norm_num [FVector.distSquared])]
    norm_num [MAX_FLT, FVector.distSquared]
  exact not_lt.mpr h

/-- Claim C2 (amended): if some non-null entry lies at distance strictly below
MAX_FLT from the source, FindClosestActor returns true together with a
non-null entry realizing the minimum distance over all non-null entries, and
that minimum as the distance. -/
theorem claim_C2_amended (source : FVector) (L : List (Option Actor))
    (h : ∃ a ∈ L.filterMap id, FVector.distance source a.loc < MAX_FLT) :
    (findClosestActor source L).found = true ∧
    ∃ a ∈ L.filterMap id,
      (findClosestActor source L).closestActor = some a ∧
      (findClosestActor source L).closestDistance = FVector.distance source a.loc ∧
      ∀ b ∈ L.filterMap id,
        FVector.distance source a.loc ≤ FVector.distance source b.loc := by
  obtain ⟨a0, ha0, hd0⟩ := h
  have hL : L ≠ [] := by
    rintro rfl
    simp at ha0
  rw [findClosestActor_eq source L hL]
  rcases loopA_mem source (L.filterMap id) (none, MAX_FLT) with heq | ⟨a, ha, heq⟩
  · exfalso
    have hle := (loopA_le source (L.filterMap id) (none, MAX_FLT)).2 a0 ha0
    rw [heq] at hle
    have : MAX_FLT ≤ FVector.distance source a0.loc := hle
    linarith
  · refine ⟨?_, a, ha, ?_, ?_, ?_⟩
    · rw [heq]; rfl
    · rw [heq]
    · rw [heq]
    · intro b hb
      have hle := (loopA_le source (L.filterMap id) (none, MAX_FLT)).2 b hb
      rw [heq] at hle
      exact hle

/-- Witness for claim C2: one null and one non-null entry at distance 5. -/
theorem claim_C2_witness :
    (findClosestActor ⟨0, 0, 0⟩ [none, some ⟨7, ⟨3, 4, 0⟩⟩]).found = true ∧
    ∃ a ∈ ([none, some ⟨7, ⟨3, 4, 0⟩⟩] : List (Option Actor)).filterMap id,
      (findClosestActor ⟨0, 0, 0⟩ [none, some ⟨7, ⟨3, 4, 0⟩⟩]).closestActor = some a ∧
      (findClosestActor ⟨0, 0, 0⟩ [none, some ⟨7, ⟨3, 4, 0⟩⟩]).closestDistance
        = FVector.distance ⟨0, 0, 0⟩ a.loc ∧
      ∀ b ∈ ([none, some ⟨7, ⟨3, 4, 0⟩⟩] : List (Option Actor)).filterMap id,
        FVector.distance ⟨0, 0, 0⟩ a.loc ≤ FVector.distance ⟨0, 0, 0⟩ b.loc :=
  claim_C2_amended ⟨0, 0, 0⟩ [none, some ⟨7, ⟨3, 4, 0⟩⟩]
    ⟨⟨7, ⟨3, 4, 0⟩⟩, by simp, by
      show FVector.distance ⟨0, 0, 0⟩ ⟨3, 4, 0⟩ < MAX_FLT
      rw [distance_eval ⟨0, 0, 0⟩ ⟨3, 4, 0⟩ 5 (by norm_num)
        (by norm_num [FVector.distSquared])]
      norm_num [MAX_FLT]⟩

/-- Counterexample to claim C2 as stated: a single non-null actor at distance
at least MAX_FLT is never accepted by the strict-less test against the MAX_FLT
sentinel, so the function returns false and a null actor despite the array
containing a non-null entry. -/
theorem claim_C2_counterexample :
    (findClosestActor ⟨0, 0, 0⟩ [some ⟨0, ⟨3e38, 3e38, 0⟩⟩]).found = false ∧
    (findClosestActor ⟨0, 0, 0⟩ [some ⟨0, ⟨3e38, 3e38, 0⟩⟩]).closestActor = none := by
  rw [findClosestActor_eq ⟨0, 0, 0⟩ _ (by simp)]
  have hfm : ([some ⟨0, ⟨3e38, 3e38, 0⟩⟩] : List (Option Actor)).filterMap id
      = [⟨0, ⟨3e38, 3e38, 0⟩⟩] := by simp
  rw [hfm]
  have e1 : findClosestLoopA ⟨0, 0, 0⟩ [⟨0, ⟨3e38, 3e38, 0⟩⟩] (none, MAX_FLT)
      = (none, MAX_FLT) := by
    apply loopA_const
    intro b hb
    rcases List.mem_singleton.mp hb with rfl
    exact not_lt.mp far_loc_not_lt
  rw [e1]
  exact ⟨rfl, rfl⟩

/-- Claim C3 (amended): if the non-null entries split as `P ++ a :: Q` where
`a` is strictly closer than everything in `P`, no farther than anything in
`Q`, within MAX_FLT of the source, and tied with some entry of `Q`, then
FindClosestActor returns `a` — the first entry achieving the minimum in
iteration order. -/
theorem claim_C3_amended (source : FVector) (L : List (Option Actor)) (P Q : List Actor)
    (a : Actor) (hsplit : L.filterMap id = P ++ a :: Q)
    (hmax : FVector.distance source a.loc < MAX_FLT)
    (hP : ∀ b ∈ P, FVector.distance source a.loc < FVector.distance source b.loc)
    (hQ : ∀ b ∈ Q, FVector.distance source a.loc ≤ FVector.distance source b.loc)
    (_htie : ∃ b ∈ Q, FVector.distance source b.loc = FVector.distance source a.loc) :
    (findClosestActor source L).closestActor = some a ∧
    (findClosestActor source L).closestDistance = FVector.distance source a.loc := by
  have hL : L ≠ [] := by
    rintro rfl
    simp at hsplit
  rw [findClosestActor_eq source L hL, hsplit, loopA_append]
  rcases loopA_mem source P (none, MAX_FLT) with heq | ⟨b, hb, heq⟩
  · rw [heq]
    simp only [findClosestLoopA]
    rw [if_pos (show FVector.distance source a.loc < ((none, MAX_FLT) : Option Actor × ℝ).2
      from hmax)]
    rw [loopA_const source Q _ (fun b hb => hQ b hb)]
    exact ⟨rfl, rfl⟩
  · rw [heq]
    simp only [findClosestLoopA]
    rw [if_pos (show FVector.distance source a.loc
        < ((some b, FVector.distance source b.loc) : Option Actor × ℝ).2
      from hP b hb)]
    rw [loopA_const source Q _ (fun b hb => hQ b hb)]
    exact ⟨rfl, rfl⟩

/-- Witness for claim C3: non-null entries at distances 7, 5, 5; the first
entry at distance 5 is returned. -/
theorem claim_C3_witness :
    (findClosestActor ⟨0, 0, 0⟩
      [some ⟨0, ⟨0, 0, 7⟩⟩, none, some ⟨1, ⟨3, 4, 0⟩⟩, some ⟨2, ⟨0, 5, 0⟩⟩]).closestActor
      = some ⟨1, ⟨3, 4, 0⟩⟩ ∧
    (findClosestActor ⟨0, 0, 0⟩
      [some ⟨0, ⟨0, 0, 7⟩⟩, none, some ⟨1, ⟨3, 4, 0⟩⟩, some ⟨2, ⟨0, 5, 0⟩⟩]).closestDistance
      = FVector.distance ⟨0, 0, 0⟩ ⟨3, 4, 0⟩ := by
  have hd5 : FVector.distance ⟨0, 0, 0⟩ ⟨3, 4, 0⟩ = 5 :=
    distance_eval _ _ 5 (by norm_num) (by norm_num [FVector.distSquared])
  have hd7 : FVector.distance ⟨0, 0, 0⟩ ⟨0, 0, 7⟩ = 7 :=
    distance_eval _ _ 7 (by norm_num) (by norm_num [FVector.distSquared])
  have hd5' : FVector.distance ⟨0, 0, 0⟩ ⟨0, 5, 0⟩ = 5 :=
    distance_eval _ _ 5 (by norm_num) (by norm_num [FVector.distSquared])
  exact claim_C3_amended ⟨0, 0, 0⟩
    [some ⟨0, ⟨0, 0, 7⟩⟩, none, some ⟨1, ⟨3, 4, 0⟩⟩, some ⟨2, ⟨0, 5, 0⟩⟩]
    [⟨0, ⟨0, 0, 7⟩⟩] [⟨2, ⟨0, 5, 0⟩⟩] ⟨1, ⟨3, 4, 0⟩⟩
    (by simp)
    (by show FVector.distance ⟨0, 0, 0⟩ ⟨3, 4, 0⟩ < MAX_FLT
        rw [hd5]; norm_num [MAX_FLT])
    (by intro b hb
        rcases List.mem_singleton.mp hb with rfl
        show FVector.distance ⟨0, 0, 0⟩ ⟨3, 4, 0⟩ < FVector.distance ⟨0, 0, 0⟩ ⟨0, 0, 7⟩
        rw [hd5, hd7]; norm_num)
    (by intro b hb
        rcases List.mem_singleton.mp hb with rfl
        show FVector.distance ⟨0, 0, 0⟩ ⟨3, 4, 0⟩ ≤ FVector.distance ⟨0, 0, 0⟩ ⟨0, 5, 0⟩
        rw [hd5, hd5'])
    ⟨⟨2, ⟨0, 5, 0⟩⟩, by simp, by
      show FVector.distance ⟨0, 0, 0⟩ ⟨0, 5, 0⟩ = FVector.distance ⟨0, 0, 0⟩ ⟨3, 4, 0⟩
      rw [hd5, hd5']⟩

/-- Counterexample to claim C3 as stated: two non-null entries tied at a
minimum distance of at least MAX_FLT; the function returns a null actor, not
the first tied entry. -/
theorem claim_C3_counterexample :
    (findClosestActor ⟨0, 0, 0⟩
      [some ⟨0, ⟨3e38, 3e38, 0⟩⟩, some ⟨1, ⟨3e38, 3e38, 0⟩⟩]).closestActor
      ≠ some ⟨0, ⟨3e38, 3e38, 0⟩⟩ := by
  rw [findClosestActor_eq ⟨0, 0, 0⟩ _ (by simp)]
  have hfm : ([some ⟨0, ⟨3e38, 3e38, 0⟩⟩, some ⟨1, ⟨3e38, 3e38, 0⟩⟩] :
      List (Option Actor)).filterMap id
      = [⟨0, ⟨3e38, 3e38, 0⟩⟩, ⟨1, ⟨3e38, 3e38, 0⟩⟩] := by simp
  rw [hfm]
  have e1 : findClosestLoopA ⟨0, 0, 0⟩ [⟨0, ⟨3e38, 3e38, 0⟩⟩, ⟨1, ⟨3e38, 3e38, 0⟩⟩]
      (none, MAX_FLT) = (none, MAX_FLT) := by
    apply loopA_const
    intro b hb
    rcases List.mem_cons.mp hb with rfl | hb'
    · exact not_lt.mp far_loc_not_lt
    · rcases List.mem_singleton.mp hb' with rfl
      exact not_lt.mp far_loc_not_lt
  rw [e1]
  simp

/-- Claim C4: when every entry is null (in particular for the empty array)
FindClosestActor returns exactly false, a null actor and the MAX_FLT
sentinel; the empty and all-null outputs coincide. -/
theorem claim_C4 (source : FVector) (L : List (Option Actor))
    (h : ∀ a ∈ L, a = none) :
    findClosestActor source L = ⟨false, none, MAX_FLT⟩ := by
  cases L with
  | nil => rfl
  | cons hd rest =>
    rw [findClosestActor_eq source _ (by simp)]
    have hfm : (hd :: rest : List (Option Actor)).filterMap id = [] := by
      rw [List.filterMap_eq_nil_iff]
      exact h
    rw [hfm]
    rfl

/-- Witness for claim C4: the all-null array and the empty array produce the
identical output record. -/
theorem claim_C4_witness :
    findClosestActor ⟨1, 2, 3⟩ [none, none] = ⟨false, none, MAX_FLT⟩ ∧
    findClosestActor ⟨1, 2, 3⟩ [] = ⟨false, none, MAX_FLT⟩ :=
  ⟨claim_C4 ⟨1, 2, 3⟩ [none, none] (by simp), claim_C4 ⟨1, 2, 3⟩ [] (by simp)⟩

lemma loopLogged_spec (source : FVector) (L : List (Option Actor)) :
    ∀ (acc : Option Actor × ℝ) (log : List Actor),
      findClosestLoopLogged source L acc log
        = (findClosestLoop source L acc, log ++ L.filterMap id) := by
  induction L with
  | nil =>
    intro acc log
    simp [findClosestLoopLogged, findClosestLoop]
  | cons hd rest ih =>
    intro acc log
    cases hd with
    | none =>
      simp only [findClosestLoopLogged, findClosestLoop]
      rw [ih]
      simp
    | some a =>
      simp only [findClosestLoopLogged, findClosestLoop]
      rw [ih]
      simp

/-- Claim C10: the scan queries GetActorLocation exactly once per non-null
entry and never on a null entry — the instrumented loop's query log is
precisely the list of non-null entries in iteration order — and the
instrumentation does not change the computed result. -/
theorem claim_C10 (source : FVector) (L : List (Option Actor)) :
    (findClosestLoopLogged source L (none, MAX_FLT) []).2 = L.filterMap id ∧
    (findClosestLoopLogged source L (none, MAX_FLT) []).1
      = findClosestLoop source L (none, MAX_FLT) := by
  rw [loopLogged_spec]
  exact ⟨by simp, rfl⟩

/-! ### Rotation interpolation -/

lemma cosomOf_nonneg (q1 q2 : FQuat) : 0 ≤ cosomOf q1 q2 := by
  simp only [cosomOf, floatSelect]
  split_ifs with h
  · exact h
  · linarith [not_le.mp h]

lemma cosomOf_of_neg {q1 q2 : FQuat} (hd : q1.dot q2 < 0) :
    cosomOf q1 q2 = -(q1.dot q2) := by
  simp only [cosomOf, floatSelect]
  rw [if_neg (not_le.mpr hd)]

lemma sin_arccos_pos {c : ℝ} (h0 : 0 ≤ c) (h1 : c < 1) :
    0 < Real.sin (Real.arccos c) := by
  rw [Real.sin_arccos]
  apply Real.sqrt_pos.mpr
  nlinarith

lemma slerpScales_zero {c : ℝ} (h0 : 0 ≤ c) : slerpScales c 0 = (1, 0) := by
  simp only [slerpScales]
  split_ifs with h
  · rw [Prod.mk.injEq]
    constructor
    · rw [show ((1:ℝ) - 0) = 1 from by norm_num, one_mul, mul_one_div,
        div_self (ne_of_gt (sin_arccos_pos h0 (lt_trans h (by norm_num))))]
    · rw [zero_mul, Real.sin_zero, zero_mul]
  · norm_num

lemma slerpScales_one {c : ℝ} (h0 : 0 ≤ c) : slerpScales c 1 = (0, 1) := by
  simp only [slerpScales]
  split_ifs with h
  · rw [Prod.mk.injEq]
    constructor
    · rw [show ((1:ℝ) - 1) = 0 from by norm_num, zero_mul, Real.sin_zero, zero_mul]
    · rw [one_mul, mul_one_div,
        div_self (ne_of_gt (sin_arccos_pos h0 (lt_trans h (by norm_num))))]
  · norm_num

lemma slerpNN_zero (q1 q2 : FQuat) : slerpNotNormalized q1 q2 0 = q1 := by
  have hs := slerpScales_zero (cosomOf_nonneg q1 q2)
  have e0 : slerpScale0 q1 q2 0 = 1 := by rw [slerpScale0, hs]
  have e1 : slerpScale1 q1 q2 0 = 0 := by
    rw [slerpScale1, hs]
    simp only [floatSelect]
    split_ifs <;> simp
  simp only [slerpNotNormalized, e0, e1]
  apply FQuat.ext <;> simp

lemma slerpNN_one (q1 q2 : FQuat) :
    slerpNotNormalized q1 q2 1 = if 0 ≤ q1.dot q2 then q2 else q2.negate := by
  have hs := slerpScales_one (cosomOf_nonneg q1 q2)
  have e0 : slerpScale0 q1 q2 1 = 0 := by rw [slerpScale0, hs]
  by_cases hd : 0 ≤ q1.dot q2
  · have e1 : slerpScale1 q1 q2 1 = 1 := by
      rw [slerpScale1, hs]
      simp only [floatSelect]
      rw [if_pos hd]
    rw [if_pos hd]
    simp only [slerpNotNormalized, e0, e1]
    apply FQuat.ext <;> simp
  · have e1 : slerpScale1 q1 q2 1 = -1 := by
      rw [slerpScale1, hs]
      simp only [floatSelect]
      rw [if_neg hd]
    rw [if_neg hd]
    simp only [slerpNotNormalized, e0, e1, FQuat.negate]
    apply FQuat.ext <;> simp

lemma getNormalized_of_normSq_one {q : FQuat} (h : q.normSq = 1) :
    q.getNormalized = q := by
  simp only [FQuat.getNormalized, h]
  rw [if_pos (by norm_num [SMALL_NUMBER] : SMALL_NUMBER ≤ (1:ℝ))]
  apply FQuat.ext <;> simp [Real.sqrt_one]

lemma negate_normSq (q : FQuat) : q.negate.normSq = q.normSq := by
  simp only [FQuat.negate, FQuat.normSq]
  ring

lemma negate_sameOrientation (q : FQuat) : q.negate.sameOrientation q := by
  intro v
  simp only [FQuat.rotateVector, FQuat.negate, FVector.cross, FVector.scale, FVector.add]
  apply FVector.ext <;> · dsimp only; ring

/-- The squared norm of the Euler-assembled quaternion is the product of three
Pythagorean identities. -/
lemma euler_quat_normSq (a b c : ℝ) :
    (Real.cos c * Real.sin a * Real.sin b - Real.sin c * Real.cos a * Real.cos b) *
      (Real.cos c * Real.sin a * Real.sin b - Real.sin c * Real.cos a * Real.cos b) +
    (-Real.cos c * Real.sin a * Real.cos b - Real.sin c * Real.cos a * Real.sin b) *
      (-Real.cos c * Real.sin a * Real.cos b - Real.sin c * Real.cos a * Real.sin b) +
    (Real.cos c * Real.cos a * Real.sin b - Real.sin c * Real.sin a * Real.cos b) *
      (Real.cos c * Real.cos a * Real.sin b - Real.sin c * Real.sin a * Real.cos b) +
    (Real.cos c * Real.cos a * Real.cos b + Real.sin c * Real.sin a * Real.sin b) *
      (Real.cos c * Real.cos a * Real.cos b + Real.sin c * Real.sin a * Real.sin b) = 1 := by
  have ha := Real.sin_sq_add_cos_sq a
  have hb := Real.sin_sq_add_cos_sq b
  have hc := Real.sin_sq_add_cos_sq c
  calc (Real.cos c * Real.sin a * Real.sin b - Real.sin c * Real.cos a * Real.cos b) *
      (Real.cos c * Real.sin a * Real.sin b - Real.sin c * Real.cos a * Real.cos b) +
    (-Real.cos c * Real.sin a * Real.cos b - Real.sin c * Real.cos a * Real.sin b) *
      (-Real.cos c * Real.sin a * Real.cos b - Real.sin c * Real.cos a * Real.sin b) +
    (Real.cos c * Real.cos a * Real.sin b - Real.sin c * Real.sin a * Real.cos b) *
      (Real.cos c * Real.cos a * Real.sin b - Real.sin c * Real.sin a * Real.cos b) +
    (Real.cos c * Real.cos a * Real.cos b + Real.sin c * Real.sin a * Real.sin b) *
      (Real.cos c * Real.cos a * Real.cos b + Real.sin c * Real.sin a * Real.sin b)
      = (Real.sin a ^ 2 + Real.cos a ^ 2) * ((Real.sin b ^ 2 + Real.cos b ^ 2) *
          (Real.sin c ^ 2 + Real.cos c ^ 2)) := by ring
    _ = 1 := by rw [ha, hb, hc]; norm_num

/-- The rotator-to-quaternion conversion always yields a unit quaternion. -/
lemma quaternion_normSq (r : FRotator) : (FRotator.quaternion r).normSq = 1 := by
  simp only [FQuat.normSq, FRotator.quaternion]
  exact euler_quat_normSq _ _ _

lemma clamp_nonpos {x : ℝ} (h : x ≤ 0) : clamp x 0 1 = 0 := by
  simp only [clamp]
  rcases lt_or_eq_of_le h with h' | h'
  · rw [if_pos h']
  · subst h'
    rw [if_neg (lt_irrefl 0), if_pos (by norm_num : (0:ℝ) < 1)]

lemma clamp_ge_one {x : ℝ} (h : 1 ≤ x) : clamp x 0 1 = 1 := by
  simp only [clamp]
  rw [if_neg (by linarith), if_neg (not_lt.mpr h)]

lemma clamp_mem {x : ℝ} (h0 : 0 ≤ x) (h1 : x < 1) : clamp x 0 1 = x := by
  simp only [clamp]
  rw [if_neg (not_lt.mpr h0), if_pos h1]

/-- Claim C6 (amended): the interpolation parameter is
`clamp(DeltaTime * InterpSpeed, 0, 1)`; when `DeltaTime * InterpSpeed ≤ 0` the
result is exactly the quaternion-Euler round trip of Current, and when
`DeltaTime * InterpSpeed ≥ 1` the result is the Euler image of a quaternion
rotating identically to Target's quaternion. -/
theorem claim_C6_amended (current target : FRotator) (dt speed : ℝ) :
    (dt * speed ≤ 0 →
      smoothRotatorInterp current target dt speed
        = FQuat.rotator (FRotator.quaternion current)) ∧
    (1 ≤ dt * speed →
      ∃ q : FQuat, smoothRotatorInterp current target dt speed = FQuat.rotator q ∧
        q.sameOrientation (FRotator.quaternion target)) := by
  constructor
  · intro h
    simp only [smoothRotatorInterp, resultQuat, FQuat.slerp]
    rw [clamp_nonpos h, slerpNN_zero,
      getNormalized_of_normSq_one (quaternion_normSq current)]
  · intro h
    simp only [smoothRotatorInterp, resultQuat, FQuat.slerp]
    rw [clamp_ge_one h, slerpNN_one]
    by_cases hd : 0 ≤ (FRotator.quaternion current).dot (FRotator.quaternion target)
    · rw [if_pos hd, getNormalized_of_normSq_one (quaternion_normSq target)]
      exact ⟨FRotator.quaternion target, rfl, fun v => rfl⟩
    · rw [if_neg hd, getNormalized_of_normSq_one
        (by rw [negate_normSq]; exact quaternion_normSq target)]
      exact ⟨(FRotator.quaternion target).negate, rfl, negate_sameOrientation _⟩

/-- Witness for claim C6 at dt = 0 (parameter clamps to 0) and at
dt = speed = 1 (parameter clamps to 1). -/
theorem claim_C6_witness :
    smoothRotatorInterp ⟨10, 20, 30⟩ ⟨40, 50, 60⟩ 0 3
      = FQuat.rotator (FRotator.quaternion ⟨10, 20, 30⟩) ∧
    ∃ q : FQuat, smoothRotatorInterp ⟨10, 20, 30⟩ ⟨40, 50, 60⟩ 1 1 = FQuat.rotator q ∧
      q.sameOrientation (FRotator.quaternion ⟨40, 50, 60⟩) :=
  ⟨(claim_C6_amended ⟨10, 20, 30⟩ ⟨40, 50, 60⟩ 0 3).1 (by norm_num),
    (claim_C6_amended ⟨10, 20, 30⟩ ⟨40, 50, 60⟩ 1 1).2 (by norm_num)⟩

lemma fmod_of_nonneg_lt (a b : ℝ) (hb : 0 < b) (h0 : 0 ≤ a) (hab : a < b) :
    fmod a b = a := by
  simp only [fmod, truncTowardZero]
  have hq0 : 0 ≤ a / b := div_nonneg h0 (le_of_lt hb)
  rw [if_pos hq0]
  rw [Int.floor_eq_zero_iff.mpr (Set.mem_Ico.mpr ⟨hq0, (div_lt_one hb).mpr hab⟩)]
  simp

lemma quaternion_pitch0_roll0 (yaw : ℝ) (h0 : 0 ≤ yaw) (h1 : yaw < 360) :
    FRotator.quaternion ⟨0, yaw, 0⟩ =
      ⟨0, 0, Real.sin (yaw * (Real.pi / 180 / 2)),
        Real.cos (yaw * (Real.pi / 180 / 2))⟩ := by
  have hy : fmod yaw 360 = yaw := fmod_of_nonneg_lt yaw 360 (by norm_num) h0 h1
  have hz : fmod (0:ℝ) 360 = 0 := fmod_of_nonneg_lt 0 360 (by norm_num) le_rfl (by norm_num)
  simp only [FRotator.quaternion, hy, hz]
  apply FQuat.ext <;> simp

lemma quat_of_zero : FRotator.quaternion ⟨0, 0, 0⟩ = ⟨0, 0, 0, 1⟩ := by
  rw [quaternion_pitch0_roll0 0 le_rfl (by norm_num)]
  apply FQuat.ext <;> simp

lemma quat_of_yaw180 : FRotator.quaternion ⟨0, 180, 0⟩ = ⟨0, 0, 1, 0⟩ := by
  rw [quaternion_pitch0_roll0 180 (by norm_num) (by norm_num)]
  rw [show (180:ℝ) * (Real.pi / 180 / 2) = Real.pi / 2 from by ring]
  apply FQuat.ext <;> simp

lemma quat_of_yaw270 : FRotator.quaternion ⟨0, 270, 0⟩
    = ⟨0, 0, Real.sqrt 2 / 2, -(Real.sqrt 2 / 2)⟩ := by
  rw [quaternion_pitch0_roll0 270 (by norm_num) (by norm_num)]
  rw [show (270:ℝ) * (Real.pi / 180 / 2) = Real.pi - Real.pi / 4 from by ring]
  apply FQuat.ext <;>
    simp [Real.sin_pi_sub, Real.cos_pi_sub, Real.sin_pi_div_four, Real.cos_pi_div_four]

lemma atan2_zero_neg_one : atan2 0 (-1) = Real.pi := by
  simp only [atan2]
  norm_num [Real.arctan_zero]

lemma atan2_zero_one : atan2 0 1 = 0 := by
  simp only [atan2]
  norm_num [Real.arctan_zero]

lemma fastAsin_zero : fastAsin 0 = 0 := by
  simp only [fastAsin]
  norm_num [fastAsinHalfPi, Real.sqrt_one]

lemma rotator_of_zquat : FQuat.rotator ⟨0, 0, 1, 0⟩ = ⟨0, 180, 0⟩ := by
  simp only [FQuat.rotator]
  rw [if_neg (by norm_num), if_neg (by norm_num)]
  rw [show (2:ℝ) * (1 * 0 - 0 * 0) = 0 from by norm_num, fastAsin_zero]
  rw [show (2:ℝ) * (0 * 1 + 0 * 0) = 0 from by norm_num,
    show (1:ℝ) - 2 * (0 * 0 + 1 * 1) = -1 from by norm_num, atan2_zero_neg_one]
  rw [show (-2:ℝ) * (0 * 0 + 0 * 1) = 0 from by norm_num,
    show (1:ℝ) - 2 * (0 * 0 + 0 * 0) = 1 from by norm_num, atan2_zero_one]
  apply FRotator.ext
  · show (0:ℝ) * (180 / Real.pi) = 0
    simp
  · show Real.pi * (180 / Real.pi) = 180
    field_simp
  · show (0:ℝ) * (180 / Real.pi) = 0
    simp

lemma interp_eval_at_negatives :
    smoothRotatorInterp ⟨0, 0, 0⟩ ⟨0, 180, 0⟩ (-1) (-1) = ⟨0, 180, 0⟩ := by
  simp only [smoothRotatorInterp, resultQuat, FQuat.slerp]
  rw [show ((-1:ℝ) * (-1)) = 1 from by norm_num, clamp_ge_one le_rfl]
  rw [quat_of_zero, quat_of_yaw180, slerpNN_one]
  rw [if_pos (by norm_num [FQuat.dot] : (0:ℝ) ≤ FQuat.dot ⟨0, 0, 0, 1⟩ ⟨0, 0, 1, 0⟩)]
  rw [getNormalized_of_normSq_one (by norm_num [FQuat.normSq])]
  exact rotator_of_zquat

lemma not_sameOrientation_z180 :
    ¬ FQuat.sameOrientation (FRotator.quaternion ⟨0, 180, 0⟩)
        (FRotator.quaternion ⟨0, 0, 0⟩) := by
  rw [quat_of_yaw180, quat_of_zero]
  intro h
  have hv := h ⟨1, 0, 0⟩
  simp only [FQuat.rotateVector, FVector.cross, FVector.scale, FVector.add] at hv
  have hx := congrArg FVector.x hv
  norm_num at hx

/-- Counterexample to claim C6 as stated: with DeltaTime = InterpSpeed = -1
the condition "DeltaTime ≤ 0 or InterpSpeed ≤ 0" holds, yet the product is 1,
the parameter clamps to 1, and the result is the Target orientation (yaw 180),
not the Current orientation. -/
theorem claim_C6_counterexample :
    ¬ (∀ (current target : FRotator) (dt speed : ℝ),
        ((dt ≤ 0 ∨ speed ≤ 0) →
          FQuat.sameOrientation
            (FRotator.quaternion (smoothRotatorInterp current target dt speed))
            (FRotator.quaternion current)) ∧
        (1 ≤ dt * speed →
          FQuat.sameOrientation
            (FRotator.quaternion (smoothRotatorInterp current target dt speed))
            (FRotator.quaternion target))) := by
  intro h
  have h1 := (h ⟨0, 0, 0⟩ ⟨0, 180, 0⟩ (-1) (-1)).1 (Or.inl (by norm_num))
  rw [interp_eval_at_negatives] at h1
  exact not_sameOrientation_z180 h1

lemma slerpScales_half {c : ℝ} (h0 : 0 ≤ c) :
    ∃ s : ℝ, 1/2 ≤ s ∧ slerpScales c (1/2) = (s, s) := by
  simp only [slerpScales]
  split_ifs with h
  · refine ⟨Real.sin (1/2 * Real.arccos c) * (1 / Real.sin (Real.arccos c)), ?_, ?_⟩
    · have hc1 : c < 1 := lt_trans h (by norm_num)
      have hom_pos : 0 < Real.arccos c := Real.arccos_pos.mpr hc1
      have hom_le : Real.arccos c ≤ Real.pi / 2 := Real.arccos_le_pi_div_two.mpr h0
      have hpi := Real.pi_pos
      have hsinH : 0 < Real.sin (Real.arccos c / 2) :=
        Real.sin_pos_of_pos_of_lt_pi (by linarith) (by linarith)
      have hcosH : 0 < Real.cos (Real.arccos c / 2) :=
        Real.cos_pos_of_mem_Ioo ⟨by linarith, by linarith⟩
      have hcos1 : Real.cos (Real.arccos c / 2) ≤ 1 := Real.cos_le_one _
      have hsin2 : Real.sin (Real.arccos c)
          = 2 * Real.sin (Real.arccos c / 2) * Real.cos (Real.arccos c / 2) := by
        conv_lhs => rw [show Real.arccos c = 2 * (Real.arccos c / 2) from by ring]
        exact Real.sin_two_mul _
      rw [show (1/2 : ℝ) * Real.arccos c = Real.arccos c / 2 from by ring, hsin2]
      rw [show Real.sin (Real.arccos c / 2) *
          (1 / (2 * Real.sin (Real.arccos c / 2) * Real.cos (Real.arccos c / 2)))
          = 1 / (2 * Real.cos (Real.arccos c / 2)) from by
        field_simp
        ring]
      rw [div_le_div_iff₀ (by norm_num) (by linarith)]
      nlinarith
    · norm_num
  · exact ⟨1/2, le_rfl, by norm_num⟩

lemma slerpNN_half {q1 q2 : FQuat} (hd : q1.dot q2 < 0) :
    ∃ s : ℝ, 1/2 ≤ s ∧ slerpNotNormalized q1 q2 (1/2) =
      ⟨s * q1.x - s * q2.x, s * q1.y - s * q2.y,
       s * q1.z - s * q2.z, s * q1.w - s * q2.w⟩ := by
  obtain ⟨s, hs, hsc⟩ := slerpScales_half (cosomOf_nonneg q1 q2)
  refine ⟨s, hs, ?_⟩
  have e0 : slerpScale0 q1 q2 (1/2) = s := by rw [slerpScale0, hsc]
  have e1 : slerpScale1 q1 q2 (1/2) = -s := by
    rw [slerpScale1, hsc]
    simp only [floatSelect]
    rw [if_neg (not_le.mpr hd)]
  simp only [slerpNotNormalized, e0, e1]
  congr 1 <;> ring

/-- After renormalization, the slerp midpoint of two unit quaternions with
negative dot product lies within 45 degrees (in quaternion angle, 90 degrees
in rotation angle) of both endpoints: both absolute dot products are at least
sqrt(2)/2. -/
lemma normalized_half_dot (q1 q2 : FQuat) (h1 : q1.normSq = 1) (h2 : q2.normSq = 1)
    (hd : q1.dot q2 < 0) (s : ℝ) (hs : 1/2 ≤ s) :
    Real.sqrt 2 / 2 ≤
      |FQuat.dot (FQuat.getNormalized ⟨s * q1.x - s * q2.x, s * q1.y - s * q2.y,
        s * q1.z - s * q2.z, s * q1.w - s * q2.w⟩) q1| ∧
    Real.sqrt 2 / 2 ≤
      |FQuat.dot (FQuat.getNormalized ⟨s * q1.x - s * q2.x, s * q1.y - s * q2.y,
        s * q1.z - s * q2.z, s * q1.w - s * q2.w⟩) q2| := by
  have hs0 : (0:ℝ) < s := by linarith
  have hA : FQuat.normSq ⟨s * q1.x - s * q2.x, s * q1.y - s * q2.y,
      s * q1.z - s * q2.z, s * q1.w - s * q2.w⟩
      = s * s * (2 - 2 * q1.dot q2) := by
    simp only [FQuat.normSq, FQuat.dot] at h1 h2 ⊢
    linear_combination (s * s) * h1 + (s * s) * h2
  have h2dpos : (0:ℝ) < 2 - 2 * q1.dot q2 := by nlinarith
  have hge : SMALL_NUMBER ≤ s * s * (2 - 2 * q1.dot q2) := by
    rw [show SMALL_NUMBER = (1e-8 : ℝ) from rfl]
    nlinarith
  have hsq2d : 0 < Real.sqrt (2 - 2 * q1.dot q2) := Real.sqrt_pos.mpr h2dpos
  have hsqA : Real.sqrt (s * s * (2 - 2 * q1.dot q2))
      = s * Real.sqrt (2 - 2 * q1.dot q2) := by
    rw [show s * s * (2 - 2 * q1.dot q2) = s ^ 2 * (2 - 2 * q1.dot q2) from by ring,
      Real.sqrt_mul (sq_nonneg s), Real.sqrt_sq (le_of_lt hs0)]
  simp only [FQuat.getNormalized, hA]
  rw [if_pos hge]
  obtain ⟨inv, hinv⟩ :
      ∃ inv, inv = 1 / Real.sqrt (s * s * (2 - 2 * q1.dot q2)) := ⟨_, rfl⟩
  rw [← hinv]
  have hval : s * (1 - q1.dot q2) * inv
      = (1 - q1.dot q2) / Real.sqrt (2 - 2 * q1.dot q2) := by
    rw [hinv, hsqA]
    field_simp
    ring
  have hmain : Real.sqrt 2 / 2 ≤ (1 - q1.dot q2) / Real.sqrt (2 - 2 * q1.dot q2) := by
    have key : (1 - q1.dot q2) / Real.sqrt (2 - 2 * q1.dot q2)
        = Real.sqrt (1 - q1.dot q2) / Real.sqrt 2 := by
      rw [show (2:ℝ) - 2 * q1.dot q2 = 2 * (1 - q1.dot q2) from by ring,
        Real.sqrt_mul (by norm_num : (0:ℝ) ≤ 2), mul_comm (Real.sqrt 2) _, ← div_div,
        Real.div_sqrt]
    have hone : (1:ℝ) ≤ Real.sqrt (1 - q1.dot q2) := by
      have h' := Real.sqrt_le_sqrt (show (1:ℝ) ≤ 1 - q1.dot q2 by nlinarith)
      rwa [Real.sqrt_one] at h'
    rw [key, div_le_div_iff₀ (by norm_num) (Real.sqrt_pos.mpr (by norm_num : (0:ℝ) < 2)),
      Real.mul_self_sqrt (by norm_num : (0:ℝ) ≤ 2)]
    linarith
  have hpos1 : 0 < (1 - q1.dot q2) / Real.sqrt (2 - 2 * q1.dot q2) :=
    div_pos (by nlinarith) hsq2d
  constructor
  · have hD1 : FQuat.dot ⟨(s * q1.x - s * q2.x) * inv, (s * q1.y - s * q2.y) * inv,
        (s * q1.z - s * q2.z) * inv, (s * q1.w - s * q2.w) * inv⟩ q1
        = s * (1 - q1.dot q2) * inv := by
      simp only [FQuat.normSq] at h1
      simp only [FQuat.dot]
      linear_combination (inv * s) * h1
    rw [hD1, hval, abs_of_pos hpos1]
    exact hmain
  · have hD2 : FQuat.dot ⟨(s * q1.x - s * q2.x) * inv, (s * q1.y - s * q2.y) * inv,
        (s * q1.z - s * q2.z) * inv, (s * q1.w - s * q2.w) * inv⟩ q2
        = s * (q1.dot q2 - 1) * inv := by
      simp only [FQuat.normSq] at h2
      simp only [FQuat.dot]
      linear_combination (-(inv * s)) * h2
    have hval2 : s * (q1.dot q2 - 1) * inv
        = -((1 - q1.dot q2) / Real.sqrt (2 - 2 * q1.dot q2)) := by
      rw [hinv, hsqA]
      field_simp
      ring
    rw [hD2, hval2, abs_neg, abs_of_pos hpos1]
    exact hmain

/-- Claim C7: when the two converted quaternions have negative dot product,
the slerp takes the shorter arc; at the midpoint parameter
DeltaTime * InterpSpeed = 1/2 the interpolated quaternion is within 90 degrees
of rotation of both endpoints, i.e. the absolute quaternion dot products with
both endpoints are at least cos(45 degrees) = sqrt(2)/2. -/
theorem claim_C7 (a b : FRotator) (dt speed : ℝ)
    (hdot : (FRotator.quaternion a).dot (FRotator.quaternion b) < 0)
    (hmid : dt * speed = 1/2) :
    Real.sqrt 2 / 2 ≤
      |FQuat.dot (resultQuat a b dt speed) (FRotator.quaternion a)| ∧
    Real.sqrt 2 / 2 ≤
      |FQuat.dot (resultQuat a b dt speed) (FRotator.quaternion b)| := by
  obtain ⟨s, hs, hNN⟩ := slerpNN_half hdot
  simp only [resultQuat, FQuat.slerp]
  rw [hmid, clamp_mem (by norm_num) (by norm_num), hNN]
  exact normalized_half_dot _ _ (quaternion_normSq a) (quaternion_normSq b) hdot s hs

/-- Witness for claim C7 at rotators (0,0,0) and (0,270,0), whose quaternions
have dot product -sqrt(2)/2 < 0, with dt = 1/2 and speed = 1. -/
theorem claim_C7_witness :
    Real.sqrt 2 / 2 ≤
      |FQuat.dot (resultQuat ⟨0, 0, 0⟩ ⟨0, 270, 0⟩ (1/2) 1)
        (FRotator.quaternion ⟨0, 0, 0⟩)| ∧
    Real.sqrt 2 / 2 ≤
      |FQuat.dot (resultQuat ⟨0, 0, 0⟩ ⟨0, 270, 0⟩ (1/2) 1)
        (FRotator.quaternion ⟨0, 270, 0⟩)| :=
  claim_C7 ⟨0, 0, 0⟩ ⟨0, 270, 0⟩ (1/2) 1
    (by
      rw [quat_of_zero, quat_of_yaw270]
      have h2 : 0 < Real.sqrt 2 := Real.sqrt_pos.mpr (by norm_num)
      simp only [FQuat.dot]
      nlinarith)
    (by norm_num)

end GameplayUtils

end
